import Mathlib

/-!
Shallow embedding of the interval-timer session engine
(`src/contexts/TimerContext.tsx`) and verification of the spec's claims
about it.

The embedding mirrors the first (background-capable) `TimerProvider`
variant of `TimerContext.tsx`; the second variant in the same file has
identical logic on the modelled fields, minus the two optional timestamp
fields.  JS numbers that the UI keeps non-negative are modelled as `Nat`;
the `remainingSeconds` accumulator of the reconciler, which goes negative
in the source, is modelled as `Int`.  `currentTimerIndex` is `Int`
because `-1` is a sentinel value in the source.
-/

/-- `status` field of a `Timer` (`'pending' | 'running' | 'completed'`). -/
inductive TStatus where
  | pending
  | running
  | completed
deriving DecidableEq, Repr

/-- The `Timer` interface of `TimerContext.tsx` (a "segment" in spec terms). -/
structure Timer where
  id : Nat
  label : String
  minutes : Nat
  seconds : Nat
  status : TStatus
  originalMinutes : Nat
  originalSeconds : Nat
deriving DecidableEq, Repr

/-- The `TimerAppState` interface: session state owned by `TimerProvider`. -/
structure TimerAppState where
  timers : List Timer
  currentTimerIndex : Int
  isRunning : Bool
  backgroundTimestamp : Option Nat
  timerStartTime : Option Nat
deriving DecidableEq, Repr

/-- `totalSeconds` of a segment's immutable duration:
`originalMinutes * 60 + originalSeconds`. -/
def origTotal (t : Timer) : Nat := t.originalMinutes * 60 + t.originalSeconds

/-- Total remaining seconds of a segment: `minutes * 60 + seconds`. -/
def remTotal (t : Timer) : Nat := t.minutes * 60 + t.seconds

/-- JS array indexing `timers[i]` with an `Int` index: `undefined` (`none`)
for negative or out-of-range indices. -/
def getTimer? (l : List Timer) (i : Int) : Option Timer :=
  if i < 0 then none else l.get? i.toNat

/-- `list.map((t, i) => f i t)` starting the index at `k`
(the JS `.map` callbacks of the source receive the element index). -/
def mapFrom (f : Nat → Timer → Timer) : Nat → List Timer → List Timer
  | _, [] => []
  | k, t :: ts => f k t :: mapFrom f (k + 1) ts

/-- `timers.map((timer, index) => f index timer)`. -/
def mapWithIndex (f : Nat → Timer → Timer) (l : List Timer) : List Timer :=
  mapFrom f 0 l

/-- `{ ...timer, status: 'completed', minutes: 0, seconds: 0 }`. -/
def completedZero (t : Timer) : Timer :=
  { t with status := TStatus.completed, minutes := 0, seconds := 0 }

/-- The default timer created by the provider and by `addTimer`
(5:00, pending); the fresh id is passed in by the environment. -/
def defaultTimer (i : Nat) : Timer :=
  { id := i, label := "", minutes := 5, seconds := 0, status := TStatus.pending,
    originalMinutes := 5, originalSeconds := 0 }

/-- The provider's initial state: one default 5:00 segment, not running. -/
def initialState (i : Nat) : TimerAppState :=
  { timers := [defaultTimer i], currentTimerIndex := -1, isRunning := false,
    backgroundTimestamp := none, timerStartTime := none }

/-- The `setInterval` countdown body (`TimerContext.tsx` lines 270-325).
The source completes a timer when `newMinutes < 0`, i.e. (for the
non-negative values the engine manipulates) exactly when
`minutes = 0 ∧ seconds = 0` before the decrement. -/
def tick (prev : TimerAppState) : TimerAppState :=
  match getTimer? prev.timers prev.currentTimerIndex with
  | none => prev
  | some currentTimer =>
    if currentTimer.status = TStatus.running then
      if currentTimer.minutes = 0 ∧ currentTimer.seconds = 0 then
        -- `newMinutes < 0`: timer completed
        let nextTimerIndex : Int := prev.currentTimerIndex + 1
        if nextTimerIndex < (prev.timers.length : Int) then
          { prev with
            currentTimerIndex := nextTimerIndex
            isRunning := true
            timers := mapWithIndex (fun i t =>
              if (i : Int) = prev.currentTimerIndex then completedZero t
              else if (i : Int) = nextTimerIndex then
                { t with
                  status := TStatus.running
                  minutes := t.originalMinutes
                  seconds := t.originalSeconds }
              else t) prev.timers }
        else
          { prev with
            currentTimerIndex := -1
            isRunning := false
            timers := mapWithIndex (fun i t =>
              if (i : Int) = prev.currentTimerIndex then completedZero t
              else t) prev.timers }
      else
        -- ordinary decrement, borrowing from minutes when seconds underflow
        let newMinutes := if currentTimer.seconds = 0 then currentTimer.minutes - 1
          else currentTimer.minutes
        let adjustedSeconds := if currentTimer.seconds = 0 then 59
          else currentTimer.seconds - 1
        { prev with
          timers := mapWithIndex (fun i t =>
            if (i : Int) = prev.currentTimerIndex then
              { t with minutes := newMinutes, seconds := adjustedSeconds }
            else t) prev.timers }
    else prev

/-- `tick` applied `n` times. -/
def tickN : Nat → TimerAppState → TimerAppState
  | 0, s => s
  | n + 1, s => tickN n (tick s)

/-- `addTimer` (appends a fresh default timer). -/
def addTimer (fresh : Nat) (s : TimerAppState) : TimerAppState :=
  { s with timers := s.timers ++ [defaultTimer fresh] }

/-- `Partial<Timer>` as passed to `updateTimer`. -/
structure TimerUpdate where
  id : Option Nat
  label : Option String
  minutes : Option Nat
  seconds : Option Nat
  status : Option TStatus
  originalMinutes : Option Nat
  originalSeconds : Option Nat
deriving DecidableEq, Repr

/-- `{ ...timer, ...updates }`. -/
def applyUpdate (u : TimerUpdate) (t : Timer) : Timer :=
  { id := u.id.getD t.id, label := u.label.getD t.label,
    minutes := u.minutes.getD t.minutes, seconds := u.seconds.getD t.seconds,
    status := u.status.getD t.status,
    originalMinutes := u.originalMinutes.getD t.originalMinutes,
    originalSeconds := u.originalSeconds.getD t.originalSeconds }

/-- `updateTimer(id, updates)`. -/
def updateTimer (tid : Nat) (u : TimerUpdate) (s : TimerAppState) : TimerAppState :=
  { s with timers := s.timers.map (fun t => if t.id = tid then applyUpdate u t else t) }

/-- `removeTimer(id)`. -/
def removeTimer (tid : Nat) (s : TimerAppState) : TimerAppState :=
  { s with timers := s.timers.filter (fun t => t.id ≠ tid) }

/-- `startMeditation` (lines 190-232): validation plus the started state;
returns the boolean result together with the resulting state.  `now` stands
for `Date.now()`. -/
def startMeditation (now : Nat) (s : TimerAppState) : Bool × TimerAppState :=
  if s.timers.any (fun t => t.originalMinutes == 0 && t.originalSeconds == 0) then
    (false, s)
  else
    (true,
      { s with
        isRunning := true
        currentTimerIndex := 0
        timerStartTime := some now
        timers := mapWithIndex (fun i t =>
          { t with
            status := if i = 0 then TStatus.running else TStatus.pending
            minutes := t.originalMinutes
            seconds := t.originalSeconds }) s.timers })

/-- `stopMeditation` (lines 250-262): full reset to the pending baseline. -/
def stopMeditation (s : TimerAppState) : TimerAppState :=
  { s with
    isRunning := false
    currentTimerIndex := -1
    timerStartTime := none
    backgroundTimestamp := none
    timers := s.timers.map (fun t =>
      { t with
        status := TStatus.pending
        minutes := t.originalMinutes
        seconds := t.originalSeconds }) }

/-! ## The suspension reconciler (`handleAppStateChange`, lines 83-139) -/

/-- The `while (remainingSeconds <= 0 && currentIndex < prev.timers.length)`
loop of the reconciler, recursing structurally on the list of timers after
the current index (`rest = timers.drop (idx + 1)`).  At entry the current
index `idx` is in range.  One loop iteration increments the index and, when
the incremented index is still in range, adds that timer's full duration to
the (possibly negative) remainder.  Returns the final
`(remainingSeconds, currentIndex)` pair of the source loop. -/
def reconLoop (rem : Int) (idx : Nat) : List Timer → Int × Nat
  | [] => if rem ≤ 0 then (rem, idx + 1) else (rem, idx)
  | t :: rest =>
    if rem ≤ 0 then reconLoop (rem + (origTotal t : Int)) (idx + 1) rest
    else (rem, idx)

/-- The state update applied by the reconciler (`setAppState` callback,
lines 85-139): fast-forward the snapshot by `elapsedSeconds`. -/
def applyElapsed (elapsedSeconds : Nat) (prev : TimerAppState) : TimerAppState :=
  if prev.currentTimerIndex = -1 ∨ prev.isRunning = false then prev
  else
    match getTimer? prev.timers prev.currentTimerIndex with
    | none => prev
    | some currentTimer =>
      if currentTimer.status = TStatus.running then
        let idx0 : Nat := prev.currentTimerIndex.toNat
        let res := reconLoop ((remTotal currentTimer : Int) - (elapsedSeconds : Int))
          idx0 (prev.timers.drop (idx0 + 1))
        if (prev.timers.length : Nat) ≤ res.2 then
          -- all timers completed
          { prev with
            isRunning := false
            currentTimerIndex := -1
            timers := prev.timers.map completedZero }
        else
          -- update current timer with remaining time
          { prev with
            currentTimerIndex := (res.2 : Int)
            timers := mapWithIndex (fun i t =>
              if i < res.2 then completedZero t
              else if i = res.2 then
                { t with
                  status := TStatus.running
                  minutes := res.1.toNat / 60
                  seconds := res.1.toNat % 60 }
              else t) prev.timers }
      else prev

/-- Number of `playChime()` invocations performed by the reconciler's
replay loop (one per iteration, lines 96-99); mirrors `reconLoop`. -/
def chimeLoop (rem : Int) : List Timer → Nat
  | [] => if rem ≤ 0 then 1 else 0
  | t :: rest => if rem ≤ 0 then 1 + chimeLoop (rem + (origTotal t : Int)) rest else 0

/-- Number of chimes fired during a foreground-resume reconciliation
(the state update runs only when `elapsedSeconds > 0`, line 83). -/
def reconChimes (elapsedSeconds : Nat) (prev : TimerAppState) : Nat :=
  if elapsedSeconds = 0 then 0
  else if prev.currentTimerIndex = -1 ∨ prev.isRunning = false then 0
  else
    match getTimer? prev.timers prev.currentTimerIndex with
    | none => 0
    | some currentTimer =>
      if currentTimer.status = TStatus.running then
        let idx0 : Nat := prev.currentTimerIndex.toNat
        chimeLoop ((remTotal currentTimer : Int) - (elapsedSeconds : Int))
          (prev.timers.drop (idx0 + 1))
      else 0

/-! ## The reference fold of spec §4.3, stated from the spec's words -/

/-- Spec §4.3 loop: "While the running remainder is ≤ 0 and a next segment
exists: mark the current segment completed (zeroed), advance index, add the
next segment's total duration to the remainder, mark it running."  `rest`
is the list of segments after the current index. -/
def specLoop (rem : Int) (idx : Nat) : List Timer → Int × Nat
  | [] => (rem, idx)
  | t :: rest =>
    if rem ≤ 0 then specLoop (rem + (origTotal t : Int)) (idx + 1) rest
    else (rem, idx)

/-- The Suspension Reconciler as described by spec §4.3 / claim C2:
subtract `elapsed` from the active segment's remaining total seconds, run
the fold, and either finish the session (remainder never became positive)
or land on a segment with `remaining = (rem / 60, rem % 60)`, all earlier
segments completed, all later ones pending with full duration. -/
def specReconcile (elapsed : Nat) (snap : TimerAppState) : TimerAppState :=
  match getTimer? snap.timers snap.currentTimerIndex with
  | none => snap
  | some active =>
    if active.status = TStatus.running then
      let idx0 : Nat := snap.currentTimerIndex.toNat
      let res := specLoop ((remTotal active : Int) - (elapsed : Int)) idx0
        (snap.timers.drop (idx0 + 1))
      if res.1 ≤ 0 then
        { snap with
          isRunning := false
          currentTimerIndex := -1
          timers := snap.timers.map completedZero }
      else
        { snap with
          currentTimerIndex := (res.2 : Int)
          timers := mapWithIndex (fun i t =>
            if i < res.2 then completedZero t
            else if i = res.2 then
              { t with
                status := TStatus.running
                minutes := res.1.toNat / 60
                seconds := res.1.toNat % 60 }
            else
              { t with
                status := TStatus.pending
                minutes := t.originalMinutes
                seconds := t.originalSeconds }) snap.timers }
    else snap

/-- Claim C2's reference fold amended at its one point of divergence from
the code: segments after the landing segment are left unchanged instead of
being reset to pending with full duration. -/
def specReconcileKeepLater (elapsed : Nat) (snap : TimerAppState) : TimerAppState :=
  match getTimer? snap.timers snap.currentTimerIndex with
  | none => snap
  | some active =>
    if active.status = TStatus.running then
      let idx0 : Nat := snap.currentTimerIndex.toNat
      let res := specLoop ((remTotal active : Int) - (elapsed : Int)) idx0
        (snap.timers.drop (idx0 + 1))
      if res.1 ≤ 0 then
        { snap with
          isRunning := false
          currentTimerIndex := -1
          timers := snap.timers.map completedZero }
      else
        { snap with
          currentTimerIndex := (res.2 : Int)
          timers := mapWithIndex (fun i t =>
            if i < res.2 then completedZero t
            else if i = res.2 then
              { t with
                status := TStatus.running
                minutes := res.1.toNat / 60
                seconds := res.1.toNat % 60 }
            else t) snap.timers }
    else snap

/-! ## The foreground-resume handler around the reconciler (lines 73-148) -/

/-- A value read back from the persistent store under the snapshot key:
either a string that `JSON.parse` accepts (carrying the parsed snapshot)
or a malformed one on which `JSON.parse` throws. -/
inductive StoredSnap where
  | good (st : TimerAppState)
  | bad
deriving DecidableEq, Repr

/-- The two persisted keys (`@background_timestamp`, `@timer_state`);
`none` models an absent key. -/
structure Store where
  bgTs : Option Nat
  savedState : Option StoredSnap
deriving DecidableEq, Repr

/-- The `nextAppState === 'active'` branch of `handleAppStateChange`
(lines 73-148): read both keys; when both are present and the in-memory
session is running, parse the snapshot (a parse error jumps to the `catch`
block, skipping the key removals) and, when the elapsed whole seconds are
positive, apply the reconciler to the in-memory state; otherwise fall
through to the unconditional key removals.  Returns the resulting store
and session state.  `now` is `Date.now()` in milliseconds and `bgTs`
stores the persisted backgrounding timestamp in milliseconds. -/
def onForeground (now : Nat) (store : Store) (mem : TimerAppState) :
    Store × TimerAppState :=
  match store.bgTs, store.savedState with
  | some ts, some snap =>
    if mem.isRunning then
      match snap with
      | StoredSnap.bad => (store, mem)
      | StoredSnap.good _ =>
        let elapsedSeconds := (now - ts) / 1000
        (⟨none, none⟩, if 0 < elapsedSeconds then applyElapsed elapsedSeconds mem else mem)
    else (⟨none, none⟩, mem)
  | _, _ => (⟨none, none⟩, mem)

/-! ## Basic lemmas about the list helpers -/

theorem mapFrom_length (f : Nat → Timer → Timer) (k : Nat) (l : List Timer) :
    (mapFrom f k l).length = l.length := by
  induction l generalizing k with
  | nil => rfl
  | cons t ts ih => simp [mapFrom, ih]

theorem mapFrom_get (f : Nat → Timer → Timer) (k : Nat) (l : List Timer) (j : Nat)
    (hj : j < l.length) (hj' : j < (mapFrom f k l).length) :
    (mapFrom f k l).get ⟨j, hj'⟩ = f (k + j) (l.get ⟨j, hj⟩) := by
  induction l generalizing k j with
  | nil => simp at hj
  | cons t ts ih =>
    cases j with
    | zero => rfl
    | succ m =>
      have := ih (k + 1) m (by simpa using Nat.lt_of_succ_lt_succ hj)
        (by simpa [mapFrom] using hj')
      simpa [mapFrom, List.get, Nat.add_assoc, Nat.add_comm 1 m] using this

theorem mapFrom_congr {f g : Nat → Timer → Timer} {k : Nat} {l : List Timer}
    (h : ∀ j (hj : j < l.length), f (k + j) (l.get ⟨j, hj⟩) = g (k + j) (l.get ⟨j, hj⟩)) :
    mapFrom f k l = mapFrom g k l := by
  induction l generalizing k with
  | nil => rfl
  | cons t ts ih =>
    have h0 := h 0 (by simp)
    simp only [mapFrom]
    refine congrArg₂ _ (by simpa using h0) (ih fun j hj => ?_)
    have := h (j + 1) (by simpa using Nat.succ_lt_succ hj)
    simpa [List.get, Nat.add_assoc, Nat.add_comm 1 j] using this

theorem mapFrom_id {f : Nat → Timer → Timer} {k : Nat} {l : List Timer}
    (h : ∀ j (hj : j < l.length), f (k + j) (l.get ⟨j, hj⟩) = l.get ⟨j, hj⟩) :
    mapFrom f k l = l := by
  induction l generalizing k with
  | nil => rfl
  | cons t ts ih =>
    have h0 := h 0 (by simp)
    simp only [mapFrom]
    refine congrArg₂ _ (by simpa using h0) (ih fun j hj => ?_)
    have := h (j + 1) (by simpa using Nat.succ_lt_succ hj)
    simpa [List.get, Nat.add_assoc, Nat.add_comm 1 j] using this

theorem mem_mapFrom {f : Nat → Timer → Timer} {k : Nat} {l : List Timer} {x : Timer}
    (hx : x ∈ mapFrom f k l) :
    ∃ j, ∃ hj : j < l.length, x = f (k + j) (l.get ⟨j, hj⟩) := by
  induction l generalizing k with
  | nil => simp [mapFrom] at hx
  | cons t ts ih =>
    simp only [mapFrom, List.mem_cons] at hx
    rcases hx with h | h
    · exact ⟨0, by simp, by simpa using h⟩
    · obtain ⟨j, hj, hx⟩ := ih h
      exact ⟨j + 1, by simpa using Nat.succ_lt_succ hj,
        by simpa [List.get, Nat.add_assoc, Nat.add_comm 1 j] using hx⟩

theorem getTimer?_some {l : List Timer} {i : Int} {t : Timer}
    (h : getTimer? l i = some t) :
    0 ≤ i ∧ ∃ hlt : i.toNat < l.length, l.get ⟨i.toNat, hlt⟩ = t := by
  unfold getTimer? at h
  split at h
  · exact absurd h (by simp)
  · rename_i hneg
    have h0 : 0 ≤ i := Int.not_lt.mp hneg
    rw [List.get?_eq_some] at h
    obtain ⟨hlt, hget⟩ := h
    exact ⟨h0, hlt, hget⟩

/-! ## Claim C10: the reconciled state does not depend on the parsed
snapshot's content -/

/-- Claim C10: reconciliation on foreground-resume is a function of the
in-memory session state and the elapsed time only; two well-formed
persisted snapshots with the same stored timestamp produce identical
results from the same in-memory state. -/
theorem C10_snapshot_content_irrelevant (now ts : Nat) (a b mem : TimerAppState) :
    onForeground now ⟨some ts, some (StoredSnap.good a)⟩ mem =
      onForeground now ⟨some ts, some (StoredSnap.good b)⟩ mem := rfl

/-! ## Claim C7: malformed persisted snapshot on foreground-resume -/

/-- A concrete running in-memory session (one 0:02 segment, running). -/
def exRun : TimerAppState :=
  { timers := [{ id := 0
                 label := ""
                 minutes := 0
                 seconds := 2
                 status := TStatus.running
                 originalMinutes := 0
                 originalSeconds := 2 }]
    currentTimerIndex := 0
    isRunning := true
    backgroundTimestamp := none
    timerStartTime := none }

/-- Claim C7 counterexample: with the snapshot key present but malformed,
the timestamp present, and the session running, the `JSON.parse` exception
jumps to the `catch` block and the two stored keys are NOT removed,
contrary to the claim that they are removed on every such resume event. -/
theorem C7_cex :
    onForeground 5000 ⟨some 0, some StoredSnap.bad⟩ exRun =
      (⟨some 0, some StoredSnap.bad⟩, exRun) ∧
    (⟨some 0, some StoredSnap.bad⟩ : Store) ≠ (⟨none, none⟩ : Store) := by
  decide

/-- Claim C7 as amended: on a resume event with a malformed snapshot, or a
missing timestamp while a snapshot is present, reconciliation is skipped
and the session keeps its in-memory state; the stored keys are removed
EXCEPT in the case (malformed snapshot, timestamp present, session
running), where the parse error aborts the handler before the removals and
both keys survive. -/
theorem C7_skip_on_bad_snapshot (now : Nat) (store : Store) (mem : TimerAppState)
    (h : store.savedState = some StoredSnap.bad ∨
      (store.bgTs = none ∧ store.savedState ≠ none)) :
    (onForeground now store mem).2 = mem ∧
    (onForeground now store mem).1 =
      (if store.savedState = some StoredSnap.bad ∧ store.bgTs ≠ none ∧
          mem.isRunning = true then store else (⟨none, none⟩ : Store)) := by
  obtain ⟨ts?, snap?⟩ := store
  rcases ts? with _ | ts <;> rcases snap? with _ | snap
  · simp at h
  · simp [onForeground]
  · simp at h
  · rcases snap with st | _
    · rcases h with h | h
      · simp at h
      · simp at h
    · cases hr : mem.isRunning
      · simp [onForeground, hr]
      · simp [onForeground, hr]

/-- Witness for `C7_skip_on_bad_snapshot` at a concrete input: malformed
snapshot, timestamp present, running session — keys survive. -/
theorem C7_witness :
    ((⟨some 0, some StoredSnap.bad⟩ : Store).savedState = some StoredSnap.bad ∨
      ((⟨some 0, some StoredSnap.bad⟩ : Store).bgTs = none ∧
        (⟨some 0, some StoredSnap.bad⟩ : Store).savedState ≠ none)) ∧
    ((onForeground 5000 ⟨some 0, some StoredSnap.bad⟩ exRun).2 = exRun ∧
      (onForeground 5000 ⟨some 0, some StoredSnap.bad⟩ exRun).1 =
        (if (⟨some 0, some StoredSnap.bad⟩ : Store).savedState = some StoredSnap.bad ∧
            (⟨some 0, some StoredSnap.bad⟩ : Store).bgTs ≠ none ∧
            exRun.isRunning = true then (⟨some 0, some StoredSnap.bad⟩ : Store)
          else (⟨none, none⟩ : Store))) :=
  ⟨Or.inl rfl,
    C7_skip_on_bad_snapshot 5000 ⟨some 0, some StoredSnap.bad⟩ exRun (Or.inl rfl)⟩

/-! ## Claim C3: `startMeditation` validation -/

/-- The empty session (all segments removed, idle). -/
def emptySession : TimerAppState :=
  { timers := []
    currentTimerIndex := -1
    isRunning := false
    backgroundTimestamp := none
    timerStartTime := none }

/-- Claim C3 counterexample: on an empty segment sequence `startMeditation`
does NOT fail validation — `Array.some` over an empty array is `false`, so
it returns `true` and mutates the state (`isRunning := true`,
`currentTimerIndex := 0` with no timers). -/
theorem C3_cex :
    (startMeditation 0 emptySession).1 = true ∧
    (startMeditation 0 emptySession).2 ≠ emptySession := by
  decide

/-- Claim C3 as amended: `startMeditation` returns `false` and leaves the
state unchanged exactly when some segment has total original duration 0;
an empty segment sequence passes validation vacuously (and returns `true`,
mutating the state). -/
theorem C3_validation (now : Nat) (s : TimerAppState) :
    ((startMeditation now s).1 = false ↔ ∃ t ∈ s.timers, origTotal t = 0) ∧
    ((∃ t ∈ s.timers, origTotal t = 0) → (startMeditation now s).2 = s) := by
  have hiff : (s.timers.any fun t => t.originalMinutes == 0 && t.originalSeconds == 0) = true ↔
      ∃ t ∈ s.timers, origTotal t = 0 := by
    rw [List.any_eq_true]
    constructor
    · rintro ⟨t, ht, hp⟩
      refine ⟨t, ht, ?_⟩
      simp only [Bool.and_eq_true, beq_iff_eq] at hp
      simp [origTotal, hp.1, hp.2]
    · rintro ⟨t, ht, hp⟩
      refine ⟨t, ht, ?_⟩
      simp only [origTotal] at hp
      simp only [Bool.and_eq_true, beq_iff_eq]
      omega
  constructor
  · rw [← hiff]
    unfold startMeditation
    by_cases h : (s.timers.any fun t => t.originalMinutes == 0 && t.originalSeconds == 0) = true
    · simp [h]
    · simp [h]
  · intro hex
    unfold startMeditation
    rw [if_pos (hiff.mpr hex)]

/-- A session with a zero-duration segment. -/
def zeroTimer : Timer :=
  { id := 0
    label := ""
    minutes := 0
    seconds := 0
    status := TStatus.pending
    originalMinutes := 0
    originalSeconds := 0 }

def exZeroSession : TimerAppState :=
  { timers := [zeroTimer]
    currentTimerIndex := -1
    isRunning := false
    backgroundTimestamp := none
    timerStartTime := none }

/-- Witness for `C3_validation` at a concrete input. -/
theorem C3_witness :
    (∃ t ∈ exZeroSession.timers, origTotal t = 0) ∧
    (startMeditation 0 exZeroSession).2 = exZeroSession :=
  ⟨⟨zeroTimer, by simp [exZeroSession], rfl⟩,
    (C3_validation 0 exZeroSession).2 ⟨zeroTimer, by simp [exZeroSession], rfl⟩⟩

/-! ## Claim C8: `stopMeditation` resets to the pending baseline -/

/-- Claim C8: from every prior state, `stopMeditation` leaves every segment
pending with `remaining = originalDuration`, and sets `isRunning = false`,
`currentIndex = -1`. -/
theorem C8_stop_resets (s : TimerAppState) :
    (stopMeditation s).isRunning = false ∧
    (stopMeditation s).currentTimerIndex = -1 ∧
    ∀ t ∈ (stopMeditation s).timers,
      t.status = TStatus.pending ∧ t.minutes = t.originalMinutes ∧
        t.seconds = t.originalSeconds := by
  refine ⟨rfl, rfl, ?_⟩
  intro t ht
  simp only [stopMeditation, List.mem_map] at ht
  obtain ⟨u, _, rfl⟩ := ht
  exact ⟨rfl, rfl, rfl⟩

/-- Witness for `C8_stop_resets` at a concrete input. -/
theorem C8_witness :
    defaultTimer 3 ∈ (stopMeditation (initialState 3)).timers ∧
    ((defaultTimer 3).status = TStatus.pending ∧
      (defaultTimer 3).minutes = (defaultTimer 3).originalMinutes ∧
      (defaultTimer 3).seconds = (defaultTimer 3).originalSeconds) :=
  ⟨by decide, (C8_stop_resets (initialState 3)).2.2 (defaultTimer 3) (by decide)⟩

/-! ## Claim C2: the reconciler versus the spec's reference fold -/

theorem specLoop_snd_ge (rest : List Timer) (rem : Int) (idx : Nat) :
    idx ≤ (specLoop rem idx rest).2 := by
  induction rest generalizing rem idx with
  | nil => simp [specLoop]
  | cons t ts ih =>
    simp only [specLoop]
    split
    · exact Nat.le_trans (Nat.le_succ idx) (ih _ _)
    · exact Nat.le_refl idx

theorem specLoop_snd_le (rest : List Timer) (rem : Int) (idx : Nat) :
    (specLoop rem idx rest).2 ≤ idx + rest.length := by
  induction rest generalizing rem idx with
  | nil => simp [specLoop]
  | cons t ts ih =>
    simp only [specLoop, List.length_cons]
    split
    · exact Nat.le_trans (ih _ _) (by omega)
    · omega

theorem specLoop_exhausted (rest : List Timer) (rem : Int) (idx : Nat)
    (h : (specLoop rem idx rest).1 ≤ 0) :
    (specLoop rem idx rest).2 = idx + rest.length := by
  induction rest generalizing rem idx with
  | nil => simp [specLoop]
  | cons t ts ih =>
    simp only [specLoop, List.length_cons] at h ⊢
    split
    · rename_i hle
      rw [if_pos hle] at h
      rw [ih _ _ h]
      omega
    · rename_i hgt
      rw [if_neg hgt] at h
      simp only [Prod.fst] at h
      omega

/-- The source's `while` loop agrees with the spec's fold, except that
when the remainder never becomes positive, the source loop runs one final
iteration that pushes the index past the last position. -/
theorem reconLoop_eq_specLoop (rest : List Timer) (rem : Int) (idx : Nat) :
    reconLoop rem idx rest =
      (if (specLoop rem idx rest).1 ≤ 0
        then ((specLoop rem idx rest).1, (specLoop rem idx rest).2 + 1)
        else specLoop rem idx rest) := by
  induction rest generalizing rem idx with
  | nil => simp [reconLoop, specLoop]
  | cons t ts ih =>
    simp only [reconLoop, specLoop]
    split
    · exact ih _ _
    · rfl

/-- Claim C2 as amended (the reconciler's actual contract): subtract
`elapsed` from the active segment's remaining seconds; while the remainder
is ≤ 0 and a next segment exists, complete and advance; if segments run
out the session finishes with everything completed; otherwise the landing
segment remains with `(rem / 60, rem % 60)` running and all earlier
segments completed — but segments after the landing one are left
UNCHANGED (the claim's "pending with full duration" clause is the single
point where the claim fails on the code). -/
theorem C2_reconciler_eq_fold (elapsed : Nat) (s : TimerAppState) (ct : Timer)
    (h1 : getTimer? s.timers s.currentTimerIndex = some ct)
    (h2 : ct.status = TStatus.running)
    (h3 : s.isRunning = true) :
    applyElapsed elapsed s = specReconcileKeepLater elapsed s := by
  obtain ⟨hpos, hlt, -⟩ := getTimer?_some h1
  have hne : ¬(s.currentTimerIndex = -1 ∨ s.isRunning = false) := by
    rintro (h | h)
    · omega
    · rw [h3] at h
      cases h
  have hlen : s.currentTimerIndex.toNat + 1 +
      (List.drop (s.currentTimerIndex.toNat + 1) s.timers).length = s.timers.length := by
    rw [List.length_drop]
    omega
  have hex := specLoop_exhausted (List.drop (s.currentTimerIndex.toNat + 1) s.timers)
    ((remTotal ct : Int) - (elapsed : Int)) s.currentTimerIndex.toNat
  have hub := specLoop_snd_le (List.drop (s.currentTimerIndex.toNat + 1) s.timers)
    ((remTotal ct : Int) - (elapsed : Int)) s.currentTimerIndex.toNat
  simp only [applyElapsed, specReconcileKeepLater, h1, hne, if_false, ite_false, h2,
    if_true, ite_true, if_pos, reduceIte]
  rw [reconLoop_eq_specLoop]
  by_cases hsign : (specLoop ((remTotal ct : Int) - (elapsed : Int))
      s.currentTimerIndex.toNat
      (List.drop (s.currentTimerIndex.toNat + 1) s.timers)).1 ≤ 0
  · rw [if_pos hsign, if_pos hsign]
    have hsnd := hex hsign
    rw [if_pos (by simp only [Prod.snd]; omega)]
  · rw [if_neg hsign, if_neg hsign]
    rw [if_neg (by omega)]

/-- A two-segment snapshot whose second (later) segment does not hold its
full original duration: segment 0 running 0:05 (of 0:05), segment 1
pending 0:01 (of 0:05). -/
def exTwo : TimerAppState :=
  { timers := [{ id := 0
                 label := ""
                 minutes := 0
                 seconds := 5
                 status := TStatus.running
                 originalMinutes := 0
                 originalSeconds := 5 },
               { id := 1
                 label := ""
                 minutes := 0
                 seconds := 1
                 status := TStatus.pending
                 originalMinutes := 0
                 originalSeconds := 5 }]
    currentTimerIndex := 0
    isRunning := true
    backgroundTimestamp := none
    timerStartTime := none }

/-- Claim C2 counterexample: for the snapshot `exTwo` (running segment,
`elapsed = 2`) the code leaves the later segment unchanged (0:01 pending)
while the claim's reference fold resets it to pending with full duration
(0:05), so the reconciler's output differs from the claimed fold. -/
theorem C2_cex : applyElapsed 2 exTwo ≠ specReconcile 2 exTwo := by
  decide

/-- Witness for `C2_reconciler_eq_fold` at a concrete input. -/
theorem C2_witness :
    getTimer? exTwo.timers exTwo.currentTimerIndex = some
      { id := 0, label := "", minutes := 0, seconds := 5,
        status := TStatus.running, originalMinutes := 0, originalSeconds := 5 } ∧
    TStatus.running = TStatus.running ∧ exTwo.isRunning = true ∧
    applyElapsed 7 exTwo = specReconcileKeepLater 7 exTwo :=
  ⟨by decide, rfl, rfl,
    C2_reconciler_eq_fold 7 exTwo
      { id := 0, label := "", minutes := 0, seconds := 5,
        status := TStatus.running, originalMinutes := 0, originalSeconds := 5 }
      (by decide) rfl rfl⟩

/-! ## Claim C6: chimes during recovery replay -/

theorem reconLoop_snd_ge (rest : List Timer) (rem : Int) (idx : Nat) :
    idx ≤ (reconLoop rem idx rest).2 := by
  induction rest generalizing rem idx with
  | nil =>
    simp only [reconLoop]
    split
    · exact Nat.le_succ idx
    · exact Nat.le_refl idx
  | cons t ts ih =>
    simp only [reconLoop]
    split
    · exact Nat.le_trans (Nat.le_succ idx) (ih _ _)
    · exact Nat.le_refl idx

/-- One chime is played per iteration of the replay loop, so the number of
chimes is the total index advance of the loop. -/
theorem chimeLoop_eq_advance (rest : List Timer) (rem : Int) (idx : Nat) :
    chimeLoop rem rest = (reconLoop rem idx rest).2 - idx := by
  induction rest generalizing rem idx with
  | nil =>
    simp only [chimeLoop, reconLoop]
    split
    · omega
    · omega
  | cons t ts ih =>
    simp only [chimeLoop, reconLoop]
    split
    · rename_i hle
      have hge := reconLoop_snd_ge ts (rem + (origTotal t : Int)) (idx + 1)
      rw [ih (rem + (origTotal t : Int)) (idx + 1)]
      omega
    · omega

/-- Claim C6 counterexample: reconciling `exRun` (one running 0:02 segment)
with `elapsed = 5` fires the chime once from inside the replay loop
(`playChime()` at lines 96-99), although the claim says the Chime Signal
is never invoked on the recovery path. -/
theorem C6_cex : reconChimes 5 exRun = 1 ∧ reconChimes 5 exRun ≠ 0 := by
  decide

/-- Claim C6 as amended: during foreground-resume reconciliation the chime
IS fired, exactly once per segment boundary crossed during the replay:
when the session is still running afterwards, the count is the index
advance; when the replay finishes the session, the count is the number of
segments from the previously current one to the end. -/
theorem C6_replay_chime_count (elapsed : Nat) (s : TimerAppState) (ct : Timer)
    (h1 : getTimer? s.timers s.currentTimerIndex = some ct)
    (h2 : ct.status = TStatus.running)
    (h3 : s.isRunning = true)
    (he : elapsed ≠ 0) :
    reconChimes elapsed s =
      (if (applyElapsed elapsed s).isRunning then
        ((applyElapsed elapsed s).currentTimerIndex - s.currentTimerIndex).toNat
      else s.timers.length - s.currentTimerIndex.toNat) := by
  obtain ⟨hpos, hlt, -⟩ := getTimer?_some h1
  have hne : ¬(s.currentTimerIndex = -1 ∨ s.isRunning = false) := by
    rintro (h | h)
    · omega
    · rw [h3] at h
      cases h
  have hlen : s.currentTimerIndex.toNat + 1 +
      (List.drop (s.currentTimerIndex.toNat + 1) s.timers).length = s.timers.length := by
    rw [List.length_drop]
    omega
  have hgeL := reconLoop_snd_ge (List.drop (s.currentTimerIndex.toNat + 1) s.timers)
    ((remTotal ct : Int) - (elapsed : Int)) s.currentTimerIndex.toNat
  have hubL : (reconLoop ((remTotal ct : Int) - (elapsed : Int))
      s.currentTimerIndex.toNat
      (List.drop (s.currentTimerIndex.toNat + 1) s.timers)).2 ≤ s.timers.length := by
    rw [reconLoop_eq_specLoop]
    have hub := specLoop_snd_le (List.drop (s.currentTimerIndex.toNat + 1) s.timers)
      ((remTotal ct : Int) - (elapsed : Int)) s.currentTimerIndex.toNat
    have hex := specLoop_exhausted (List.drop (s.currentTimerIndex.toNat + 1) s.timers)
      ((remTotal ct : Int) - (elapsed : Int)) s.currentTimerIndex.toNat
    split
    · rename_i hsg
      have := hex hsg
      simp only [Prod.snd]
      omega
    · omega
  simp only [reconChimes, applyElapsed, h1, hne, if_false, ite_false, h2, if_true,
    ite_true, reduceIte, he]
  rw [chimeLoop_eq_advance (List.drop (s.currentTimerIndex.toNat + 1) s.timers)
    ((remTotal ct : Int) - (elapsed : Int)) s.currentTimerIndex.toNat]
  by_cases hfin : s.timers.length ≤ (reconLoop ((remTotal ct : Int) - (elapsed : Int))
      s.currentTimerIndex.toNat
      (List.drop (s.currentTimerIndex.toNat + 1) s.timers)).2
  · rw [if_pos hfin]
    simp only [Bool.false_eq_true, if_false, ite_false, Bool.if_false_left]
    omega
  · rw [if_neg hfin]
    simp only [h3, if_true, ite_true, reduceIte]
    omega

/-- Witness for `C6_replay_chime_count` at a concrete input. -/
theorem C6_witness :
    getTimer? exRun.timers exRun.currentTimerIndex = some
      { id := 0, label := "", minutes := 0, seconds := 2,
        status := TStatus.running, originalMinutes := 0, originalSeconds := 2 } ∧
    exRun.isRunning = true ∧ (5 : Nat) ≠ 0 ∧
    reconChimes 5 exRun =
      (if (applyElapsed 5 exRun).isRunning then
        ((applyElapsed 5 exRun).currentTimerIndex - exRun.currentTimerIndex).toNat
      else exRun.timers.length - exRun.currentTimerIndex.toNat) :=
  ⟨by decide, rfl, by decide,
    C6_replay_chime_count 5 exRun
      { id := 0, label := "", minutes := 0, seconds := 2,
        status := TStatus.running, originalMinutes := 0, originalSeconds := 2 }
      (by decide) rfl rfl (by decide)⟩

/-! ## Claim C1: n foreground ticks versus one reconciliation with
`elapsed = n` -/

/-- Overwrite the current segment's remaining `(minutes, seconds)` pair,
leaving everything else unchanged: the shape of `tick`'s ordinary
decrement and of the reconciler's landing update within one segment. -/
def setCur (s : TimerAppState) (m sec : Nat) : TimerAppState :=
  { s with
    timers := mapWithIndex (fun i t =>
      if (i : Int) = s.currentTimerIndex then { t with minutes := m, seconds := sec }
      else t) s.timers }

/-- Well-formedness of a running state as produced by the engine itself:
a running current segment with a normalized seconds field, and every
earlier segment completed and zeroed. -/
def WFRun (s : TimerAppState) (ct : Timer) : Prop :=
  getTimer? s.timers s.currentTimerIndex = some ct ∧
  ct.status = TStatus.running ∧
  s.isRunning = true ∧
  ct.seconds < 60 ∧
  ∀ j (hj : j < s.timers.length), (j : Int) < s.currentTimerIndex →
    (s.timers.get ⟨j, hj⟩).status = TStatus.completed ∧
    (s.timers.get ⟨j, hj⟩).minutes = 0 ∧ (s.timers.get ⟨j, hj⟩).seconds = 0

theorem completedZero_eq_self {t : Timer} (hs : t.status = TStatus.completed)
    (hm : t.minutes = 0) (hsec : t.seconds = 0) : completedZero t = t := by
  cases t
  simp only [completedZero]
  simp_all

theorem set_running_of_running {t : Timer} (h : t.status = TStatus.running)
    (a b : Nat) :
    ({ t with status := TStatus.running, minutes := a, seconds := b } : Timer) =
      { t with minutes := a, seconds := b } := by
  cases t
  simp_all

theorem reconLoop_pos (rest : List Timer) (rem : Int) (idx : Nat) (h : 0 < rem) :
    reconLoop rem idx rest = (rem, idx) := by
  cases rest <;> simp [reconLoop, show ¬(rem ≤ 0) by omega]

/-- `tick` on a running, not-yet-expired segment only rewrites the current
segment's remaining pair (the borrow arithmetic, in normalized form). -/
theorem tick_dec (s : TimerAppState) (ct : Timer)
    (h1 : getTimer? s.timers s.currentTimerIndex = some ct)
    (h2 : ct.status = TStatus.running)
    (hnz : ¬(ct.minutes = 0 ∧ ct.seconds = 0)) :
    tick s = setCur s (if ct.seconds = 0 then ct.minutes - 1 else ct.minutes)
      (if ct.seconds = 0 then 59 else ct.seconds - 1) := by
  simp only [tick, h1, h2, ite_true, if_true, reduceIte]
  rw [if_neg hnz]
  rfl

theorem mapFrom_get? (f : Nat → Timer → Timer) (k : Nat) (l : List Timer) (j : Nat) :
    (mapFrom f k l).get? j = (l.get? j).map (f (k + j)) := by
  induction l generalizing k j with
  | nil => simp [mapFrom]
  | cons t ts ih =>
    cases j with
    | zero => rfl
    | succ m =>
      simp only [mapFrom, List.get?]
      rw [ih (k + 1) m, show k + 1 + m = k + (m + 1) from by omega]

theorem getTimer?_setCur (s : TimerAppState) (ct : Timer) (m sec : Nat)
    (h1 : getTimer? s.timers s.currentTimerIndex = some ct) :
    getTimer? (setCur s m sec).timers (setCur s m sec).currentTimerIndex =
      some { ct with minutes := m, seconds := sec } := by
  obtain ⟨hpos, hlt, hget⟩ := getTimer?_some h1
  have hidx : ((s.currentTimerIndex.toNat : Int)) = s.currentTimerIndex :=
    Int.toNat_of_nonneg hpos
  simp only [setCur, getTimer?, mapWithIndex]
  rw [if_neg (by omega)]
  rw [mapFrom_get?]
  rw [List.get?_eq_get hlt, hget]
  simp [hidx]

theorem setCur_setCur (s : TimerAppState) (m1 s1 m2 s2 : Nat) :
    setCur (setCur s m1 s1) m2 s2 = setCur s m2 s2 := by
  simp only [setCur, mapWithIndex]
  congr 1
  have hcomp : ∀ (f g : Nat → Timer → Timer) (k : Nat) (l : List Timer),
      mapFrom f k (mapFrom g k l) = mapFrom (fun j t => f j (g j t)) k l := by
    intro f g k l
    induction l generalizing k with
    | nil => rfl
    | cons t ts ih => simp [mapFrom, ih]
  rw [hcomp]
  refine mapFrom_congr fun j hj => ?_
  by_cases hc : ((j : Nat) : Int) = s.currentTimerIndex
  · simp [hc]
  · simp [hc]

theorem setCur_id (s : TimerAppState) (ct : Timer)
    (h1 : getTimer? s.timers s.currentTimerIndex = some ct) :
    setCur s ct.minutes ct.seconds = s := by
  obtain ⟨hpos, hlt, hget⟩ := getTimer?_some h1
  have : mapWithIndex (fun i t =>
      if (i : Int) = s.currentTimerIndex then
        { t with minutes := ct.minutes, seconds := ct.seconds }
      else t) s.timers = s.timers := by
    refine mapFrom_id fun j hj => ?_
    by_cases hc : ((0 + j : Nat) : Int) = s.currentTimerIndex
    · rw [if_pos hc]
      have hje : j = s.currentTimerIndex.toNat := by omega
      subst hje
      rw [show (s.timers.get ⟨s.currentTimerIndex.toNat, hj⟩) = ct from hget]
    · rw [if_neg hc]
  simp only [setCur, this]

theorem setCur_length (s : TimerAppState) (m sec : Nat) :
    (setCur s m sec).timers.length = s.timers.length := by
  simp [setCur, mapWithIndex, mapFrom_length]

theorem setCur_earlier (s : TimerAppState) (m sec : Nat) (j : Nat)
    (hj : j < s.timers.length) (hj' : j < (setCur s m sec).timers.length)
    (hne : ((j : Nat) : Int) ≠ s.currentTimerIndex) :
    (setCur s m sec).timers.get ⟨j, hj'⟩ = s.timers.get ⟨j, hj⟩ := by
  simp only [setCur, mapWithIndex] at hj' ⊢
  rw [mapFrom_get _ 0 _ j hj]
  rw [if_neg (by simpa using hne)]

/-- The borrow arithmetic of `tick` in terms of total remaining seconds:
for a normalized pair it lands on `(r - 1) / 60, (r - 1) % 60`. -/
theorem tick_dec_norm (s : TimerAppState) (ct : Timer)
    (h1 : getTimer? s.timers s.currentTimerIndex = some ct)
    (h2 : ct.status = TStatus.running)
    (h4 : ct.seconds < 60) (hr : 0 < remTotal ct) :
    tick s = setCur s ((remTotal ct - 1) / 60) ((remTotal ct - 1) % 60) := by
  have hnz : ¬(ct.minutes = 0 ∧ ct.seconds = 0) := by
    simp only [remTotal] at hr
    omega
  rw [tick_dec s ct h1 h2 hnz]
  have hm : (if ct.seconds = 0 then ct.minutes - 1 else ct.minutes) =
      (remTotal ct - 1) / 60 := by
    simp only [remTotal]
    by_cases hs : ct.seconds = 0
    · simp only [hs, if_pos, ite_true, reduceIte]
      omega
    · rw [if_neg hs]
      omega
  have hsec : (if ct.seconds = 0 then 59 else ct.seconds - 1) =
      (remTotal ct - 1) % 60 := by
    simp only [remTotal]
    by_cases hs : ct.seconds = 0
    · simp only [hs, if_pos, ite_true, reduceIte]
      omega
    · rw [if_neg hs]
      omega
  rw [hm, hsec]

/-- `setCur` preserves well-formedness of the running state. -/
theorem WFRun_setCur (s : TimerAppState) (ct : Timer) (m sec : Nat)
    (h : WFRun s ct) (hsec : sec < 60) :
    WFRun (setCur s m sec) { ct with minutes := m, seconds := sec } := by
  obtain ⟨h1, h2, h3, h4, h5⟩ := h
  refine ⟨getTimer?_setCur s ct m sec h1, h2, h3, hsec, ?_⟩
  intro j hj hjlt
  have hjlen : j < s.timers.length := by
    rw [setCur_length] at hj
    exact hj
  have hne : ((j : Nat) : Int) ≠ s.currentTimerIndex := by
    simp only [setCur] at hjlt
    omega
  rw [setCur_earlier s m sec j hjlen hj hne]
  exact h5 j hjlen (by simpa [setCur] using hjlt)

/-- Canonical form of `tickN` while staying inside the current segment. -/
theorem tickN_canon (n : Nat) (s : TimerAppState) (ct : Timer)
    (h : WFRun s ct) (hn : n < remTotal ct) :
    tickN n s = setCur s ((remTotal ct - n) / 60) ((remTotal ct - n) % 60) := by
  induction n generalizing s ct with
  | zero =>
    obtain ⟨h1, h2, h3, h4, h5⟩ := h
    have hm : (remTotal ct - 0) / 60 = ct.minutes := by
      simp only [remTotal]
      omega
    have hs : (remTotal ct - 0) % 60 = ct.seconds := by
      simp only [remTotal]
      omega
    rw [tickN, hm, hs, setCur_id s ct h1]
  | succ n ih =>
    obtain ⟨h1, h2, h3, h4, h5⟩ := h
    have hr0 : 0 < remTotal ct := by omega
    have hstep := tick_dec_norm s ct h1 h2 h4 hr0
    have hwf1 := WFRun_setCur s ct ((remTotal ct - 1) / 60) ((remTotal ct - 1) % 60)
      ⟨h1, h2, h3, h4, h5⟩ (by omega)
    have hrem1 : remTotal
        { ct with
          minutes := (remTotal ct - 1) / 60
          seconds := (remTotal ct - 1) % 60 } = remTotal ct - 1 := by
      simp only [remTotal]
      omega
    have hn1 : n < remTotal
        { ct with
          minutes := (remTotal ct - 1) / 60
          seconds := (remTotal ct - 1) % 60 } := by
      rw [hrem1]
      omega
    show tickN n (tick s) = _
    rw [hstep, ih _ _ hwf1 hn1, hrem1]
    have hcur : (setCur s ((remTotal ct - 1) / 60) ((remTotal ct - 1) % 60)).currentTimerIndex
        = s.currentTimerIndex := rfl
    rw [show (remTotal ct - 1 - n) = remTotal ct - (n + 1) from by omega]
    exact setCur_setCur s _ _ _ _

/-- Canonical form of the reconciler while staying inside the current
segment: for `n < remaining`, it only rewrites the current segment's pair
(the earlier-completed rewrites are no-ops on a well-formed state). -/
theorem applyElapsed_canon (n : Nat) (s : TimerAppState) (ct : Timer)
    (h : WFRun s ct) (hn : n < remTotal ct) :
    applyElapsed n s = setCur s ((remTotal ct - n) / 60) ((remTotal ct - n) % 60) := by
  obtain ⟨h1, h2, h3, h4, h5⟩ := h
  obtain ⟨hpos, hlt, hget⟩ := getTimer?_some h1
  have hne : ¬(s.currentTimerIndex = -1 ∨ s.isRunning = false) := by
    rintro (h | h)
    · omega
    · rw [h3] at h
      cases h
  have hrem : (0 : Int) < (remTotal ct : Int) - (n : Int) := by omega
  have htoNat : ((remTotal ct : Int) - (n : Int)).toNat = remTotal ct - n := by omega
  simp only [applyElapsed, h1, hne, ite_false, if_false, reduceIte, h2, ite_true, if_true]
  rw [reconLoop_pos _ _ _ hrem]
  simp only [Prod.fst, Prod.snd, htoNat]
  rw [if_neg (show ¬(s.timers.length ≤ s.currentTimerIndex.toNat) from by omega)]
  have hmap : mapWithIndex (fun i t =>
      if i < s.currentTimerIndex.toNat then completedZero t
      else if i = s.currentTimerIndex.toNat then
        { t with
          status := TStatus.running
          minutes := (remTotal ct - n) / 60
          seconds := (remTotal ct - n) % 60 }
      else t) s.timers =
    mapWithIndex (fun i t =>
      if (i : Int) = s.currentTimerIndex then
        { t with
          minutes := (remTotal ct - n) / 60
          seconds := (remTotal ct - n) % 60 }
      else t) s.timers := by
    refine mapFrom_congr fun j hj => ?_
    simp only [Nat.zero_add]
    rcases Nat.lt_trichotomy j s.currentTimerIndex.toNat with hlt' | heq | hgt
    · rw [if_pos hlt', if_neg (show ¬((j : Nat) : Int) = s.currentTimerIndex from by omega)]
      obtain ⟨ha, hb, hc⟩ := h5 j hj (by omega)
      exact completedZero_eq_self ha hb hc
    · subst heq
      rw [if_neg (by omega), if_pos rfl, if_pos (Int.toNat_of_nonneg hpos)]
      rw [show s.timers.get ⟨s.currentTimerIndex.toNat, hj⟩ = ct from hget]
      exact set_running_of_running h2 _ _
    · rw [if_neg (by omega), if_neg (by omega),
        if_neg (show ¬((j : Nat) : Int) = s.currentTimerIndex from by omega)]
  unfold setCur
  rw [Int.toNat_of_nonneg hpos, hmap]

/-- A session with a single running 0:01 segment. -/
def exOne : TimerAppState :=
  { timers := [{ id := 0
                 label := ""
                 minutes := 0
                 seconds := 1
                 status := TStatus.running
                 originalMinutes := 0
                 originalSeconds := 1 }]
    currentTimerIndex := 0
    isRunning := true
    backgroundTimestamp := none
    timerStartTime := none }

/-- Claim C1 counterexample: from a running segment with 1 second
remaining, one `tick()` leaves the segment running at 0:00 (the countdown
completes a segment only on the tick after its display reaches zero),
while the reconciler with `elapsed = 1` already completes the session
(its loop advances as soon as the remainder is ≤ 0).  The two paths
therefore differ at `n = remaining`. -/
theorem C1_cex : tickN 1 exOne ≠ applyElapsed 1 exOne := by
  decide

/-- Claim C1 as amended: from a well-formed running state (running current
segment, normalized seconds, earlier segments completed and zeroed),
applying `tick()` `n` times with no backgrounding agrees with the
reconciler applied once with `elapsed = n` — provided `n` is strictly
less than the current segment's remaining total seconds.  At `n` equal to
the remaining seconds the two paths diverge (see the counterexample): the
tick path holds the segment running at 0:00 for one more second, the
reconciler advances it immediately. -/
theorem C1_ticks_eq_reconcile (n : Nat) (s : TimerAppState) (ct : Timer)
    (h : WFRun s ct) (hn : n < remTotal ct) :
    tickN n s = applyElapsed n s :=
  (tickN_canon n s ct h hn).trans (applyElapsed_canon n s ct h hn).symm

/-- The timer stored in `exRun`. -/
def exRunTimer : Timer :=
  { id := 0
    label := ""
    minutes := 0
    seconds := 2
    status := TStatus.running
    originalMinutes := 0
    originalSeconds := 2 }

/-- Witness for `C1_ticks_eq_reconcile` at a concrete input (0:02 running,
`n = 1`). -/
theorem C1_witness :
    WFRun exRun exRunTimer ∧ 1 < remTotal exRunTimer ∧
    tickN 1 exRun = applyElapsed 1 exRun := by
  have hwf : WFRun exRun exRunTimer := by
    refine ⟨by decide, rfl, rfl, by decide, ?_⟩
    intro j hj hlt
    rw [show exRun.currentTimerIndex = 0 from rfl] at hlt
    exact absurd hlt (by omega)
  exact ⟨hwf, by decide, C1_ticks_eq_reconcile 1 exRun exRunTimer hwf (by decide)⟩

/-! ## Claim C4: the tick state transition -/

/-- Claim C4: for a running session whose current segment is `running`,
one `tick()` decrements the remaining time by one second, borrowing from
minutes when seconds underflow (seconds becomes 59, minutes drops by one); when the
decrement would go below zero total seconds (remaining = 0:00), the
segment completes instead: with a next segment, that segment becomes
running at full original duration and the index advances by one;
otherwise `currentIndex := -1` and `isRunning := false`. -/
theorem C4_tick_transition (s : TimerAppState) (ct : Timer)
    (h1 : getTimer? s.timers s.currentTimerIndex = some ct)
    (h3 : s.isRunning = true)
    (h2 : ct.status = TStatus.running) :
    (0 < ct.seconds → tick s = setCur s ct.minutes (ct.seconds - 1)) ∧
    (ct.seconds = 0 → 0 < ct.minutes → tick s = setCur s (ct.minutes - 1) 59) ∧
    (remTotal ct = 0 →
      (s.currentTimerIndex + 1 < (s.timers.length : Int) →
        tick s =
          { s with
            currentTimerIndex := s.currentTimerIndex + 1
            isRunning := true
            timers := mapWithIndex (fun i t =>
              if (i : Int) = s.currentTimerIndex then completedZero t
              else if (i : Int) = s.currentTimerIndex + 1 then
                { t with
                  status := TStatus.running
                  minutes := t.originalMinutes
                  seconds := t.originalSeconds }
              else t) s.timers }) ∧
      (¬(s.currentTimerIndex + 1 < (s.timers.length : Int)) →
        tick s =
          { s with
            currentTimerIndex := -1
            isRunning := false
            timers := mapWithIndex (fun i t =>
              if (i : Int) = s.currentTimerIndex then completedZero t
              else t) s.timers })) := by
  refine ⟨?_, ?_, ?_⟩
  · intro hs
    rw [tick_dec s ct h1 h2 (by omega)]
    rw [if_neg (by omega), if_neg (by omega)]
  · intro hs hm
    rw [tick_dec s ct h1 h2 (by omega)]
    rw [if_pos hs, if_pos hs]
  · intro hz
    have hms : ct.minutes = 0 ∧ ct.seconds = 0 := by
      simp only [remTotal] at hz
      omega
    constructor
    · intro hnext
      simp only [tick, h1, h2, ite_true, if_true, reduceIte]
      rw [if_pos hms, if_pos hnext]
    · intro hnext
      simp only [tick, h1, h2, ite_true, if_true, reduceIte]
      rw [if_pos hms, if_neg hnext]

/-- Witness for `C4_tick_transition` at a concrete input (0:02 running:
the ordinary-decrement case). -/
theorem C4_witness :
    getTimer? exRun.timers exRun.currentTimerIndex = some exRunTimer ∧
    exRun.isRunning = true ∧ exRunTimer.status = TStatus.running ∧
    0 < exRunTimer.seconds ∧
    tick exRun = setCur exRun exRunTimer.minutes (exRunTimer.seconds - 1) :=
  ⟨by decide, rfl, rfl, by decide,
    (C4_tick_transition exRun exRunTimer (by decide) rfl rfl).1 (by decide)⟩

/-! ## Claim C5: the single-running-segment invariant -/

/-- Number of segments with `status == running`. -/
def countRunning : List Timer → Nat
  | [] => 0
  | t :: ts => (if t.status = TStatus.running then 1 else 0) + countRunning ts

theorem countRunning_eq_zero {l : List Timer} :
    countRunning l = 0 ↔ ∀ t ∈ l, t.status ≠ TStatus.running := by
  induction l with
  | nil => simp [countRunning]
  | cons t ts ih =>
    simp only [countRunning, List.mem_cons]
    constructor
    · intro h
      have h1 : (if t.status = TStatus.running then 1 else 0) = 0 := by omega
      have h2 : countRunning ts = 0 := by omega
      rintro x (rfl | hx)
      · intro hr
        rw [if_pos hr] at h1
        cases h1
      · exact ih.mp h2 x hx
    · intro h
      rw [if_neg (h t (Or.inl rfl)), ih.mpr fun x hx => h x (Or.inr hx)]

theorem countRunning_pos_of_get (l : List Timer) {i : Nat} (hi : i < l.length)
    (h : (l.get ⟨i, hi⟩).status = TStatus.running) : 1 ≤ countRunning l := by
  induction l generalizing i with
  | nil => simp at hi
  | cons t ts ih =>
    cases i with
    | zero =>
      simp only [List.get] at h
      simp [countRunning, h]
    | succ m =>
      have := ih (by simpa using Nat.lt_of_succ_lt_succ hi) (by simpa [List.get] using h)
      simp only [countRunning]
      omega

theorem countRunning_le_one_of_unique (c : Nat) {l : List Timer}
    (h : ∀ j (hj : j < l.length), j ≠ c → (l.get ⟨j, hj⟩).status ≠ TStatus.running) :
    countRunning l ≤ 1 := by
  induction l generalizing c with
  | nil => simp [countRunning]
  | cons t ts ih =>
    cases c with
    | zero =>
      have hrest : countRunning ts = 0 := by
        rw [countRunning_eq_zero]
        intro x hx
        obtain ⟨⟨j, hj⟩, hget⟩ := List.mem_iff_get.mp hx
        have := h (j + 1) (by simpa using Nat.succ_lt_succ hj) (by omega)
        simp only [List.get] at this
        rw [← hget]
        exact this
      simp only [countRunning, hrest]
      split <;> omega
    | succ c' =>
      have hhead : t.status ≠ TStatus.running := by
        have := h 0 (by simp) (by omega)
        simpa [List.get] using this
      have hrest := ih c' fun j hj hne => by
        have := h (j + 1) (by simpa using Nat.succ_lt_succ hj) (by omega)
        simpa [List.get] using this
      simp only [countRunning, if_neg hhead]
      omega

theorem unique_running {l : List Timer} (i : Nat) (hi : i < l.length)
    (hc : countRunning l ≤ 1) (hr : (l.get ⟨i, hi⟩).status = TStatus.running)
    {j : Nat} (hj : j < l.length) (hne : j ≠ i) :
    (l.get ⟨j, hj⟩).status ≠ TStatus.running := by
  induction l generalizing i j with
  | nil => simp at hi
  | cons t ts ih =>
    cases i with
    | zero =>
      simp only [List.get] at hr
      cases j with
      | zero => exact absurd rfl hne
      | succ m =>
        simp only [List.get]
        have hts : countRunning ts = 0 := by
          simp only [countRunning, if_pos hr] at hc
          omega
        intro hrun
        have := countRunning_pos_of_get ts
          (by simpa using Nat.lt_of_succ_lt_succ hj) hrun
        omega
    | succ i' =>
      cases j with
      | zero =>
        simp only [List.get]
        intro hrun
        have hpos := countRunning_pos_of_get ts
          (by simpa using Nat.lt_of_succ_lt_succ hi) (by simpa [List.get] using hr)
        simp only [countRunning, if_pos hrun] at hc
        omega
      | succ m =>
        have hcts : countRunning ts ≤ 1 := by
          simp only [countRunning] at hc
          omega
        exact ih i' (by simpa using Nat.lt_of_succ_lt_succ hi) hcts
          (by simpa [List.get] using hr)
          (by simpa using Nat.lt_of_succ_lt_succ hj) (by omega)

theorem countRunning_append (l1 l2 : List Timer) :
    countRunning (l1 ++ l2) = countRunning l1 + countRunning l2 := by
  induction l1 with
  | nil => simp [countRunning]
  | cons t ts ih =>
    rw [List.cons_append]
    simp only [countRunning]
    rw [ih]
    omega

theorem countRunning_filter_le (p : Timer → Bool) (l : List Timer) :
    countRunning (l.filter p) ≤ countRunning l := by
  induction l with
  | nil => simp [countRunning]
  | cons t ts ih =>
    by_cases hp : p t
    · simp only [List.filter_cons, hp, if_pos, ite_true, reduceIte, countRunning]
      omega
    · simp only [List.filter_cons, hp, if_neg, ite_false, Bool.false_eq_true, reduceIte,
        countRunning]
      omega

theorem countRunning_map_status {f : Timer → Timer}
    (hf : ∀ t, (f t).status = t.status) (l : List Timer) :
    countRunning (l.map f) = countRunning l := by
  induction l with
  | nil => rfl
  | cons t ts ih => simp [countRunning, hf, ih]

theorem countRunning_mapFrom_status {f : Nat → Timer → Timer}
    (hf : ∀ k t, (f k t).status = t.status) (k : Nat) (l : List Timer) :
    countRunning (mapFrom f k l) = countRunning l := by
  induction l generalizing k with
  | nil => rfl
  | cons t ts ih => simp [mapFrom, countRunning, hf, ih]

theorem mapWithIndex_length (f : Nat → Timer → Timer) (l : List Timer) :
    (mapWithIndex f l).length = l.length := by
  simp [mapWithIndex, mapFrom_length]

theorem mapWithIndex_get (f : Nat → Timer → Timer) (l : List Timer) (j : Nat)
    (hj : j < l.length) (hj' : j < (mapWithIndex f l).length) :
    (mapWithIndex f l).get ⟨j, hj'⟩ = f j (l.get ⟨j, hj⟩) := by
  simpa using mapFrom_get f 0 l j hj hj'

/-- One transition of the session engine, with arbitrary (environment-
chosen) arguments: the public operations and the internal steps, exactly
as claim C5 quantifies them. -/
inductive Step : TimerAppState → TimerAppState → Prop where
  | add (fresh : Nat) (s : TimerAppState) : Step s (addTimer fresh s)
  | update (tid : Nat) (u : TimerUpdate) (s : TimerAppState) : Step s (updateTimer tid u s)
  | remove (tid : Nat) (s : TimerAppState) : Step s (removeTimer tid s)
  | start (now : Nat) (s : TimerAppState) : Step s (startMeditation now s).2
  | stop (s : TimerAppState) : Step s (stopMeditation s)
  | clock (s : TimerAppState) : Step s (tick s)
  | reconcile (elapsed : Nat) (s : TimerAppState) : Step s (applyElapsed elapsed s)

/-- States reachable from the provider's initial state. -/
inductive Reachable : TimerAppState → Prop where
  | init (fresh : Nat) : Reachable (initialState fresh)
  | step {s s' : TimerAppState} : Reachable s → Step s s' → Reachable s'

/-- Removing the only segment and then starting: `startMeditation` passes
validation on the empty sequence and sets `isRunning := true` with no
running segment. -/
def strandedSession : TimerAppState :=
  (startMeditation 0 (removeTimer 7 (initialState 7))).2

/-- Claim C5 counterexample: `strandedSession` is reachable by the public
operations (remove the only segment, then start), yet it has
`isRunning = true` while zero segments are `running` — violating the
claimed "zero running segments iff `isRunning == false`". -/
theorem C5_cex :
    Reachable strandedSession ∧ strandedSession.isRunning = true ∧
    countRunning strandedSession.timers = 0 := by
  refine ⟨Reachable.step (Reachable.step (Reachable.init 7) (Step.remove 7 _))
    (Step.start 0 _), ?_, ?_⟩ <;> decide

/-- The transitions of claim C5 restricted as the amended claim requires:
`updateSegment` never writes `status`, `removeSegment` happens only while
the session is not running, and `startMeditation` is not invoked on an
empty segment sequence. -/
inductive GStep : TimerAppState → TimerAppState → Prop where
  | add (fresh : Nat) (s : TimerAppState) : GStep s (addTimer fresh s)
  | update (tid : Nat) (u : TimerUpdate) (s : TimerAppState) (hu : u.status = none) :
      GStep s (updateTimer tid u s)
  | remove (tid : Nat) (s : TimerAppState) (hr : s.isRunning = false) :
      GStep s (removeTimer tid s)
  | start (now : Nat) (s : TimerAppState) (hne : s.timers ≠ []) :
      GStep s (startMeditation now s).2
  | stop (s : TimerAppState) : GStep s (stopMeditation s)
  | clock (s : TimerAppState) : GStep s (tick s)
  | reconcile (elapsed : Nat) (s : TimerAppState) : GStep s (applyElapsed elapsed s)

/-- States reachable under the restricted transitions. -/
inductive GReachable : TimerAppState → Prop where
  | init (fresh : Nat) : GReachable (initialState fresh)
  | step {s s' : TimerAppState} : GReachable s → GStep s s' → GReachable s'

/-- The invariant of claim C5. -/
def RunInv (s : TimerAppState) : Prop :=
  countRunning s.timers ≤ 1 ∧ (countRunning s.timers = 0 ↔ s.isRunning = false)

theorem RunInv_add (fresh : Nat) (s : TimerAppState) (h : RunInv s) :
    RunInv (addTimer fresh s) := by
  obtain ⟨h1, h2⟩ := h
  have hc : countRunning (addTimer fresh s).timers = countRunning s.timers := by
    simp only [addTimer, countRunning_append, countRunning, defaultTimer]
    simp
  exact ⟨by rw [hc]; exact h1, by rw [hc]; exact h2⟩

theorem RunInv_update (tid : Nat) (u : TimerUpdate) (s : TimerAppState)
    (hu : u.status = none) (h : RunInv s) : RunInv (updateTimer tid u s) := by
  obtain ⟨h1, h2⟩ := h
  have hc : countRunning (updateTimer tid u s).timers = countRunning s.timers := by
    simp only [updateTimer]
    refine countRunning_map_status (fun t => ?_) s.timers
    by_cases hid : t.id = tid
    · simp only [hid, if_pos, ite_true, reduceIte, applyUpdate, hu, Option.getD_none]
    · rw [if_neg hid]
  exact ⟨by rw [hc]; exact h1, by rw [hc]; exact h2⟩

theorem RunInv_remove (tid : Nat) (s : TimerAppState) (hr : s.isRunning = false)
    (h : RunInv s) : RunInv (removeTimer tid s) := by
  obtain ⟨h1, h2⟩ := h
  have hz : countRunning s.timers = 0 := h2.mpr hr
  have hle := countRunning_filter_le (fun t => t.id ≠ tid) s.timers
  have hc : countRunning (removeTimer tid s).timers = 0 := by
    simp only [removeTimer]
    omega
  refine ⟨by rw [hc]; omega, ?_⟩
  rw [hc]
  simp only [removeTimer]
  rw [hr]
  simp

theorem RunInv_stop (s : TimerAppState) : RunInv (stopMeditation s) := by
  have hc : countRunning (stopMeditation s).timers = 0 := by
    rw [countRunning_eq_zero]
    intro t ht
    simp only [stopMeditation, List.mem_map] at ht
    obtain ⟨u, -, rfl⟩ := ht
    simp
  exact ⟨by omega, by rw [hc]; simp [stopMeditation]⟩

theorem RunInv_start (now : Nat) (s : TimerAppState) (hne : s.timers ≠ [])
    (h : RunInv s) : RunInv (startMeditation now s).2 := by
  by_cases hv : (s.timers.any fun t => t.originalMinutes == 0 && t.originalSeconds == 0) = true
  · -- validation failure: the state is returned unchanged
    simp only [startMeditation, hv, if_pos, ite_true, reduceIte]
    exact h
  · simp only [startMeditation, hv, if_neg, ite_false, Bool.false_eq_true, reduceIte]
    have hlen0 : 0 < s.timers.length := by
      cases hl : s.timers with
      | nil => exact absurd hl hne
      | cons t ts => simp
    have hlen0' : 0 < (mapWithIndex (fun i t =>
        { t with
          status := if i = 0 then TStatus.running else TStatus.pending
          minutes := t.originalMinutes
          seconds := t.originalSeconds }) s.timers).length := by
      rw [mapWithIndex_length]
      exact hlen0
    have hget0 : ((mapWithIndex (fun i t =>
        { t with
          status := if i = 0 then TStatus.running else TStatus.pending
          minutes := t.originalMinutes
          seconds := t.originalSeconds }) s.timers).get ⟨0, hlen0'⟩).status =
        TStatus.running := by
      rw [mapWithIndex_get _ _ 0 hlen0]
      simp
    have hpos := countRunning_pos_of_get _ hlen0' hget0
    have hle : countRunning (mapWithIndex (fun i t =>
        { t with
          status := if i = 0 then TStatus.running else TStatus.pending
          minutes := t.originalMinutes
          seconds := t.originalSeconds }) s.timers) ≤ 1 := by
      apply countRunning_le_one_of_unique 0
      intro j hj hjne
      have hjlen : j < s.timers.length := by
        rw [mapWithIndex_length] at hj
        exact hj
      rw [mapWithIndex_get _ _ j hjlen]
      simp [hjne]
    refine ⟨hle, ?_⟩
    simp only
    constructor
    · intro hz
      omega
    · intro hfalse
      cases hfalse

theorem RunInv_tick (s : TimerAppState) (h : RunInv s) : RunInv (tick s) := by
  obtain ⟨h1, h2⟩ := h
  cases hget : getTimer? s.timers s.currentTimerIndex with
  | none =>
    simp only [tick, hget]
    exact ⟨h1, h2⟩
  | some ct =>
    by_cases hst : ct.status = TStatus.running
    · obtain ⟨hpos, hlt, hgete⟩ := getTimer?_some hget
      have hrun : (s.timers.get ⟨s.currentTimerIndex.toNat, hlt⟩).status =
          TStatus.running := by
        rw [hgete]
        exact hst
      have hcnt1 : 1 ≤ countRunning s.timers := countRunning_pos_of_get _ hlt hrun
      have hidx : ((s.currentTimerIndex.toNat : Nat) : Int) = s.currentTimerIndex :=
        Int.toNat_of_nonneg hpos
      by_cases hz : ct.minutes = 0 ∧ ct.seconds = 0
      · by_cases hnext : s.currentTimerIndex + 1 < (s.timers.length : Int)
        · -- completed, with a next timer
          simp only [tick, hget, hst, ite_true, if_true, reduceIte]
          rw [if_pos hz, if_pos hnext]
          have hc1lt : s.currentTimerIndex.toNat + 1 < s.timers.length := by omega
          have hc1lt' : s.currentTimerIndex.toNat + 1 < (mapWithIndex (fun i t =>
              if (i : Int) = s.currentTimerIndex then completedZero t
              else if (i : Int) = s.currentTimerIndex + 1 then
                { t with
                  status := TStatus.running
                  minutes := t.originalMinutes
                  seconds := t.originalSeconds }
              else t) s.timers).length := by
            rw [mapWithIndex_length]
            exact hc1lt
          have hget1 : ((mapWithIndex (fun i t =>
              if (i : Int) = s.currentTimerIndex then completedZero t
              else if (i : Int) = s.currentTimerIndex + 1 then
                { t with
                  status := TStatus.running
                  minutes := t.originalMinutes
                  seconds := t.originalSeconds }
              else t) s.timers).get ⟨s.currentTimerIndex.toNat + 1, hc1lt'⟩).status =
              TStatus.running := by
            rw [mapWithIndex_get _ _ _ hc1lt]
            rw [if_neg (by omega), if_pos (by omega)]
          have hposc := countRunning_pos_of_get _ hc1lt' hget1
          have hle : countRunning (mapWithIndex (fun i t =>
              if (i : Int) = s.currentTimerIndex then completedZero t
              else if (i : Int) = s.currentTimerIndex + 1 then
                { t with
                  status := TStatus.running
                  minutes := t.originalMinutes
                  seconds := t.originalSeconds }
              else t) s.timers) ≤ 1 := by
            apply countRunning_le_one_of_unique (s.currentTimerIndex.toNat + 1)
            intro j hj hjne
            have hjlen : j < s.timers.length := by
              rw [mapWithIndex_length] at hj
              exact hj
            rw [mapWithIndex_get _ _ j hjlen]
            by_cases hjc : ((j : Nat) : Int) = s.currentTimerIndex
            · rw [if_pos hjc]
              simp [completedZero]
            · rw [if_neg hjc, if_neg (by omega)]
              exact unique_running s.currentTimerIndex.toNat hlt h1 hrun hjlen (by omega)
          refine ⟨hle, ?_⟩
          simp only
          constructor
          · intro hzc
            omega
          · intro hfalse
            cases hfalse
        · -- completed, no next timer: session finishes
          simp only [tick, hget, hst, ite_true, if_true, reduceIte]
          rw [if_pos hz, if_neg hnext]
          have hc0 : countRunning (mapWithIndex (fun i t =>
              if (i : Int) = s.currentTimerIndex then completedZero t
              else t) s.timers) = 0 := by
            rw [countRunning_eq_zero]
            intro t ht
            obtain ⟨j, hj, rfl⟩ := mem_mapFrom ht
            simp only [Nat.zero_add]
            by_cases hjc : ((j : Nat) : Int) = s.currentTimerIndex
            · rw [if_pos hjc]
              simp [completedZero]
            · rw [if_neg hjc]
              exact unique_running s.currentTimerIndex.toNat hlt h1 hrun hj (by omega)
          constructor
          · simp only
            omega
          · simp only
            rw [hc0]
            simp
      · -- ordinary decrement: statuses unchanged
        simp only [tick, hget, hst, ite_true, if_true, reduceIte]
        rw [if_neg hz]
        have hc : countRunning (mapWithIndex (fun i t =>
            if (i : Int) = s.currentTimerIndex then
              { t with
                minutes := if ct.seconds = 0 then ct.minutes - 1 else ct.minutes
                seconds := if ct.seconds = 0 then 59 else ct.seconds - 1 }
            else t) s.timers) = countRunning s.timers := by
          refine countRunning_mapFrom_status (fun k t => ?_) 0 s.timers
          by_cases hkc : ((k : Nat) : Int) = s.currentTimerIndex
          · rw [if_pos hkc]
          · rw [if_neg hkc]
        exact ⟨by rw [hc]; exact h1, by rw [hc]; exact h2⟩
    · simp only [tick, hget]
      rw [if_neg hst]
      exact ⟨h1, h2⟩

theorem RunInv_reconcile (elapsed : Nat) (s : TimerAppState) (h : RunInv s) :
    RunInv (applyElapsed elapsed s) := by
  obtain ⟨h1, h2⟩ := h
  by_cases hg : s.currentTimerIndex = -1 ∨ s.isRunning = false
  · simp only [applyElapsed]
    rw [if_pos hg]
    exact ⟨h1, h2⟩
  · have hr : s.isRunning = true := by
      cases hb : s.isRunning
      · exact absurd (Or.inr hb) hg
      · rfl
    cases hget : getTimer? s.timers s.currentTimerIndex with
    | none =>
      simp only [applyElapsed, hget]
      rw [if_neg hg]
      exact ⟨h1, h2⟩
    | some ct =>
      by_cases hst : ct.status = TStatus.running
      · obtain ⟨hpos, hlt, hgete⟩ := getTimer?_some hget
        have hrun : (s.timers.get ⟨s.currentTimerIndex.toNat, hlt⟩).status =
            TStatus.running := by
          rw [hgete]
          exact hst
        have hge := reconLoop_snd_ge (List.drop (s.currentTimerIndex.toNat + 1) s.timers)
          ((remTotal ct : Int) - (elapsed : Int)) s.currentTimerIndex.toNat
        simp only [applyElapsed, hget, hst, ite_true, if_true, reduceIte]
        rw [if_neg hg]
        by_cases hfin : s.timers.length ≤ (reconLoop ((remTotal ct : Int) - (elapsed : Int))
            s.currentTimerIndex.toNat
            (List.drop (s.currentTimerIndex.toNat + 1) s.timers)).2
        · rw [if_pos hfin]
          have hc0 : countRunning (s.timers.map completedZero) = 0 := by
            rw [countRunning_eq_zero]
            intro t ht
            obtain ⟨u, -, rfl⟩ := List.mem_map.mp ht
            simp [completedZero]
          constructor
          · simp only
            omega
          · simp only
            rw [hc0]
            simp
        · rw [if_neg hfin]
          have hc'lt : (reconLoop ((remTotal ct : Int) - (elapsed : Int))
              s.currentTimerIndex.toNat
              (List.drop (s.currentTimerIndex.toNat + 1) s.timers)).2 <
              s.timers.length := by omega
          have hc'lt' : (reconLoop ((remTotal ct : Int) - (elapsed : Int))
              s.currentTimerIndex.toNat
              (List.drop (s.currentTimerIndex.toNat + 1) s.timers)).2 <
              (mapWithIndex (fun i t =>
                if i < (reconLoop ((remTotal ct : Int) - (elapsed : Int))
                    s.currentTimerIndex.toNat
                    (List.drop (s.currentTimerIndex.toNat + 1) s.timers)).2 then
                  completedZero t
                else if i = (reconLoop ((remTotal ct : Int) - (elapsed : Int))
                    s.currentTimerIndex.toNat
                    (List.drop (s.currentTimerIndex.toNat + 1) s.timers)).2 then
                  { t with
                    status := TStatus.running
                    minutes := (reconLoop ((remTotal ct : Int) - (elapsed : Int))
                        s.currentTimerIndex.toNat
                        (List.drop (s.currentTimerIndex.toNat + 1) s.timers)).1.toNat / 60
                    seconds := (reconLoop ((remTotal ct : Int) - (elapsed : Int))
                        s.currentTimerIndex.toNat
                        (List.drop (s.currentTimerIndex.toNat + 1) s.timers)).1.toNat % 60 }
                else t) s.timers).length := by
            rw [mapWithIndex_length]
            exact hc'lt
          have hgetc : ((mapWithIndex (fun i t =>
              if i < (reconLoop ((remTotal ct : Int) - (elapsed : Int))
                  s.currentTimerIndex.toNat
                  (List.drop (s.currentTimerIndex.toNat + 1) s.timers)).2 then
                completedZero t
              else if i = (reconLoop ((remTotal ct : Int) - (elapsed : Int))
                  s.currentTimerIndex.toNat
                  (List.drop (s.currentTimerIndex.toNat + 1) s.timers)).2 then
                { t with
                  status := TStatus.running
                  minutes := (reconLoop ((remTotal ct : Int) - (elapsed : Int))
                      s.currentTimerIndex.toNat
                      (List.drop (s.currentTimerIndex.toNat + 1) s.timers)).1.toNat / 60
                  seconds := (reconLoop ((remTotal ct : Int) - (elapsed : Int))
                      s.currentTimerIndex.toNat
                      (List.drop (s.currentTimerIndex.toNat + 1) s.timers)).1.toNat % 60 }
              else t) s.timers).get ⟨(reconLoop ((remTotal ct : Int) - (elapsed : Int))
                s.currentTimerIndex.toNat
                (List.drop (s.currentTimerIndex.toNat + 1) s.timers)).2, hc'lt'⟩).status =
              TStatus.running := by
            rw [mapWithIndex_get _ _ _ hc'lt]
            rw [if_neg (by omega), if_pos rfl]
          have hposc := countRunning_pos_of_get _ hc'lt' hgetc
          constructor
          · simp only
            apply countRunning_le_one_of_unique
              ((reconLoop ((remTotal ct : Int) - (elapsed : Int))
                s.currentTimerIndex.toNat
                (List.drop (s.currentTimerIndex.toNat + 1) s.timers)).2)
            intro j hj hjne
            have hjlen : j < s.timers.length := by
              rw [mapWithIndex_length] at hj
              exact hj
            rw [mapWithIndex_get _ _ j hjlen]
            by_cases hjlt : j < (reconLoop ((remTotal ct : Int) - (elapsed : Int))
                s.currentTimerIndex.toNat
                (List.drop (s.currentTimerIndex.toNat + 1) s.timers)).2
            · rw [if_pos hjlt]
              simp [completedZero]
            · rw [if_neg hjlt, if_neg hjne]
              exact unique_running s.currentTimerIndex.toNat hlt h1 hrun hjlen (by omega)
          · simp only [hr]
            constructor
            · intro hzc
              omega
            · intro hfalse
              cases hfalse
      · simp only [applyElapsed, hget]
        rw [if_neg hg]
        simp only [hst, ite_false, if_neg, Bool.false_eq_true, reduceIte]
        exact ⟨h1, h2⟩

/-- Claim C5 as amended: under the public operations restricted as the
engine's UI uses them (`updateSegment` never writes `status`,
`removeSegment` only while not running, `startMeditation` never on an
empty sequence) together with the internal steps (tick,
background/foreground reconciliation), every reachable state has at most
one running segment, and the number of running segments is zero iff
`isRunning = false`.  Unrestricted, the claim is false (see the
counterexample): start-on-empty yields `isRunning = true` with no
running segment. -/
theorem C5_single_running (s : TimerAppState) (h : GReachable s) :
    countRunning s.timers ≤ 1 ∧
    (countRunning s.timers = 0 ↔ s.isRunning = false) := by
  suffices hinv : RunInv s by exact hinv
  have hstep : ∀ {a b : TimerAppState}, GStep a b → RunInv a → RunInv b := by
    intro a b hs
    cases hs with
    | add fresh => exact RunInv_add fresh a
    | update tid u s hu => exact RunInv_update tid u a hu
    | remove tid s hrem => exact RunInv_remove tid a hrem
    | start now s hne => exact RunInv_start now a hne
    | stop => exact fun _ => RunInv_stop a
    | clock => exact RunInv_tick a
    | reconcile e => exact RunInv_reconcile e a
  induction h with
  | init fresh =>
    refine ⟨?_, ?_⟩
    · simp [initialState, countRunning, defaultTimer]
    · simp [initialState, countRunning, defaultTimer]
  | step hr hs ih => exact hstep hs ih

/-- Witness for `C5_single_running` at a concrete reachable state. -/
theorem C5_witness :
    countRunning (initialState 0).timers ≤ 1 ∧
    (countRunning (initialState 0).timers = 0 ↔ (initialState 0).isRunning = false) :=
  C5_single_running (initialState 0) (GReachable.init 0)

/-! ## Claim C9: the Notification Scheduler's cumulative offsets -/

/-- Modelled from the spec: the Notification Scheduler component (spec
§4.4, and the notification-submission step of `startMeditation` in §4.2)
has no implementation in the repository sources under `src/`; the request
record carries `delaySeconds` plus the segment's id/index/label payload,
as §4.4 and §6 describe. -/
structure NotifRequest where
  delaySeconds : Nat
  segmentId : Nat
  segmentIndex : Nat
  label : String
deriving DecidableEq, Repr

/-- Modelled from the spec: "computes cumulative offsets:
offset(i) = sum of total-duration-seconds of segments 0..i inclusive.
Submits one request per segment to the Notification Service with
`delaySeconds = offset(i)`" — the accumulator `acc` is the sum of the
durations of the segments already passed, `k` the index of the next
segment. -/
def scheduleFrom (acc k : Nat) : List Timer → List NotifRequest
  | [] => []
  | t :: ts =>
    { delaySeconds := acc + origTotal t, segmentId := t.id, segmentIndex := k,
      label := t.label } :: scheduleFrom (acc + origTotal t) (k + 1) ts

/-- Modelled from the spec: one scheduled notification per segment, in
segment order, starting from offset 0 at the session-start instant. -/
def scheduleNotifs (timers : List Timer) : List NotifRequest :=
  scheduleFrom 0 0 timers

/-- Modelled from the spec: submitting the requests to the Notification
Service yields one handle per request (`handleOf` is the service's
handle assignment), stored in the same order. -/
def submitAll (handleOf : NotifRequest → Nat) (reqs : List NotifRequest) : List Nat :=
  reqs.map handleOf

theorem scheduleFrom_length (l : List Timer) (acc k : Nat) :
    (scheduleFrom acc k l).length = l.length := by
  induction l generalizing acc k with
  | nil => rfl
  | cons t ts ih => simp [scheduleFrom, ih]

theorem scheduleFrom_get? (l : List Timer) (acc k i : Nat) :
    (scheduleFrom acc k l).get? i = (l.get? i).map (fun t =>
      { delaySeconds := acc + ((l.take (i + 1)).map origTotal).sum
        segmentId := t.id
        segmentIndex := k + i
        label := t.label }) := by
  induction l generalizing acc k i with
  | nil => simp [scheduleFrom]
  | cons t ts ih =>
    cases i with
    | zero => simp [scheduleFrom]
    | succ m =>
      simp only [scheduleFrom, List.get?]
      rw [ih (acc + origTotal t) (k + 1) m]
      cases hm : ts.get? m with
      | none => simp
      | some u =>
        simp only [Option.map_some', List.take_succ_cons, List.map_cons, List.sum_cons,
          NotifRequest.mk.injEq, Option.some.injEq]
        exact ⟨by omega, trivial, by omega, trivial⟩

/-- Claim C9 (spec-modelled): session start submits one notification per
segment, the i-th with `delaySeconds` equal to the cumulative offset
`offset(i) = sum of total-duration-seconds of segments 0..i inclusive`,
carrying the segment's index, and the returned handles are stored in
segment order (the i-th stored handle is the handle of the i-th
segment's request). -/
theorem C9_schedule_offsets (timers : List Timer) (i : Nat) (hi : i < timers.length) :
    (scheduleNotifs timers).length = timers.length ∧
    ((scheduleNotifs timers).get? i).map NotifRequest.delaySeconds =
      some ((timers.take (i + 1)).map origTotal).sum ∧
    ((scheduleNotifs timers).get? i).map NotifRequest.segmentIndex = some i ∧
    ∀ handleOf : NotifRequest → Nat,
      (submitAll handleOf (scheduleNotifs timers)).get? i =
        ((scheduleNotifs timers).get? i).map handleOf := by
  refine ⟨scheduleFrom_length timers 0 0, ?_, ?_, ?_⟩
  · rw [scheduleNotifs, scheduleFrom_get? timers 0 0 i, List.get?_eq_get hi]
    simp
  · rw [scheduleNotifs, scheduleFrom_get? timers 0 0 i, List.get?_eq_get hi]
    simp
  · intro handleOf
    rw [submitAll, List.get?_map]

/-- Witness for `C9_schedule_offsets` at a concrete input: two segments of
0:05 and 0:02 give offsets 5 and 7. -/
theorem C9_witness :
    (1 : Nat) < exTwo.timers.length ∧
    ((scheduleNotifs exTwo.timers).get? 1).map NotifRequest.delaySeconds =
      some ((exTwo.timers.take 2).map origTotal).sum :=
  ⟨by decide, (C9_schedule_offsets exTwo.timers 1 (by decide)).2.1⟩
